import Mathlib

/-!
Verification of the review-agent core against its specification.

The Python source under `src/` is shallowly embedded here:
pure functions become Lean functions over `ℚ` (exact rational arithmetic in
place of Python floats), `Option` models Python `None`, `Except`/`Option`
models raised exceptions, and network calls are abstracted as explicit
function parameters supplying the would-be response.

File map:
  - `StandarizeReview` embeds `src/mcp_server/standarize_review.py`
  - `DbSearch`         embeds `src/mcp_server/db_search.py` (`_goodness`)
  - `UtilsNormalize`   embeds `src/mcp_server/utils_normalize.py`
  - `Taberogu`         embeds `src/mcp_server/taberogu.py`
  - `Yelp`             embeds `src/mcp_server/yelp.py`
-/

set_option linter.unusedVariables false

namespace ReviewAgent

/-- Python `needle in hay` on strings: contiguous substring test. -/
def isSubstring (needle hay : List Char) : Bool := decide (needle <:+: hay)

/-- Python truthiness coalescing for optional integer counts:
`int(x) if x else 0` — `None` and `0` both yield `0`, other ints pass
through. -/
def pyCount : Option ℤ → ℤ
  | none => 0
  | some n => if n = 0 then 0 else n

theorem pyCount_some (n : ℤ) : pyCount (some n) = n := by
  by_cases h : n = 0 <;> simp [pyCount, h]

theorem pyCount_none : pyCount none = 0 := rfl

/-- Python `x or 0.0` on an optional float: `None` and `0.0` both yield
`0.0`, i.e. `Option.getD 0`. -/
def pyOr (o : Option ℚ) : ℚ := o.getD 0

namespace StandarizeReview

/-- `z(score, source)` from `standarize_review.py`: z-score against the
provider's fixed prior mean and sigma, `None` propagating. -/
def zscore (score : Option ℚ) (mu sigma : ℚ) : Option ℚ :=
  score.map (fun s => (s - mu) / sigma)

/-- One iteration of the weighting loop in
`compute_standarized_review_score`: a provider whose z-score is `None`
or whose count is `0` is skipped; otherwise it adds
`(count / total_count) * z`. -/
def contrib (z : Option ℚ) (c total : ℤ) : ℚ :=
  match z with
  | none => 0
  | some zv => if c = 0 then 0 else ((c : ℚ) / (total : ℚ)) * zv

/-- Embedding of `compute_standarized_review_score` from
`src/mcp_server/standarize_review.py`. Provider priors are
google (3.8, 0.4), tabelog (3.1, 0.35), yelp (4.0, 0.5); counts go
through Python truthiness (`pyCount`); if the total count is 0 the
function returns `None`; otherwise the count-weighted sum of available
z-scores is mapped back via `3.5 + 0.5 * weighted_sum`. -/
def compute_standarized_review_score
    (google_review_score : Option ℚ) (google_review_count : Option ℤ)
    (taberogu_review_score : Option ℚ) (taberogu_review_count : Option ℤ)
    (yelp_review_score : Option ℚ) (yelp_review_count : Option ℤ) :
    Option ℚ :=
  let cg := pyCount google_review_count
  let ct := pyCount taberogu_review_count
  let cy := pyCount yelp_review_count
  let total := cg + ct + cy
  if total = 0 then none
  else
    let zg := zscore google_review_score (19/5) (2/5)
    let zt := zscore taberogu_review_score (31/10) (7/20)
    let zy := zscore yelp_review_score 4 (1/2)
    let weighted_sum := contrib zg cg total + contrib zt ct total + contrib zy cy total
    some (7/2 + 1/2 * weighted_sum)

/-- Spec-style restatement used to settle C2 (refinement target, written
from the amended wording): each provider is a `(score, count, mu, sigma)`
row; the normalizing total is the sum of ALL providers' (truthy) counts,
including providers whose score is absent; a provider with absent score
or zero count contributes zero to the weighted z-sum. -/
def fuseWithFullTotal (providers : List (Option ℚ × Option ℤ × ℚ × ℚ)) : Option ℚ :=
  let total := (providers.map (fun p => pyCount p.2.1)).sum
  if total = 0 then none
  else
    some (7/2 + 1/2 * (providers.map (fun p =>
      contrib (zscore p.1 p.2.2.1 p.2.2.2) (pyCount p.2.1) total)).sum)

end StandarizeReview

namespace DbSearch

/-- Embedding of `_goodness` from `src/mcp_server/db_search.py`:
`0.6 * vec_score + 0.4 * rating_norm` where `rating_norm` clamps
`(rating_shrunk - 3.0) / 1.5` into `[0, 1]` and `rating_shrunk` is the
Bayesian-shrinkage estimate `(n*r + 30*3.5) / (n + 30)` (prior mean 3.5,
prior weight 30), guarded by the source's `(n + w0) > 0` test. -/
def goodness (vec_score : Option ℚ) (star_rating : Option ℚ)
    (review_count : Option ℤ) : ℚ :=
  let s := pyOr vec_score
  let r := pyOr star_rating
  let n := pyCount review_count
  let rating_shrunk :=
    if 0 < n + 30 then ((n : ℚ) * r + 30 * (7/2)) / ((n : ℚ) + 30) else 7/2
  let rating_norm := max 0 (min 1 ((rating_shrunk - 3) / (3/2)))
  3/5 * s + 2/5 * rating_norm

end DbSearch

namespace UtilsNormalize

/-- Characters deleted by the regex `（）()[]【】` + whitespace class in
`norm_jp` (replacing every run by the empty string deletes exactly the
characters of the class). -/
def strippedChars : List Char :=
  ['（', '）', '(', ')', '[', ']', '【', '】',
   ' ', '\t', '\n', '\r', '\x0B', '\x0C', ' ', '　']

def strippedChar (c : Char) : Bool := strippedChars.contains c

/-- `unicodedata.normalize("NFKC", ·)` is an external capability of the
Python standard library (the full Unicode compatibility table plus
canonical decomposition/recomposition); like the embedding client and
`difflib`, it is not reimplemented here but passed to `norm_jp` as a
function parameter.  Theorems either quantify over it or assume only
values the real NFKC provably takes.  `nfkcId` is the instance used in
closed evaluations: it is applied only to strings every character of
which is an NFKC fixed point and which contain no combining characters
(ASCII letters and the CJK ideographs 本, 店, 別, 館, 西, 東, 口), where
real NFKC is the identity. -/
def nfkcId : List Char → List Char := fun l => l

/-- Fueled form of Python `str.replace(tok, "")` (delete every
non-overlapping occurrence of `tok`, scanning left to right).  Each
step consumes at least one input character, so any fuel at least the
input length computes the full replacement. -/
def replaceAllFuel (tok : List Char) : ℕ → List Char → List Char
  | _, [] => []
  | 0, l => l
  | fuel + 1, c :: cs =>
    if tok.isPrefixOf (c :: cs) then
      replaceAllFuel tok fuel (cs.drop (tok.length - 1))
    else
      c :: replaceAllFuel tok fuel cs

/-- Python `s.replace(tok, "")` for non-empty `tok`. -/
def replaceAll (tok l : List Char) : List Char := replaceAllFuel tok l.length l

/-- The four branch-suffix tokens removed by `norm_jp`. -/
def tokHonten : List Char := ['本', '店']

def tokBekkan : List Char := ['別', '館']

def tokNishiguchi : List Char := ['西', '口', '店']

def tokHigashiguchi : List Char := ['東', '口', '店']

/-- Embedding of `norm_jp` from `src/mcp_server/utils_normalize.py`:
NFKC-normalize (the library normalizer supplied as `nfkc`), delete
every bracket/whitespace character, then delete the suffix tokens
`本店`, `別館`, `西口店`, `東口店` in that order. -/
def norm_jp (nfkc : List Char → List Char) (s : List Char) : List Char :=
  let s1 := nfkc s
  let s2 := s1.filter (fun c => !strippedChar c)
  replaceAll tokHigashiguchi
    (replaceAll tokNishiguchi (replaceAll tokBekkan (replaceAll tokHonten s2)))

theorem mem_replaceAllFuel {tok : List Char} :
    ∀ (f : ℕ) (l : List Char) (c : Char), c ∈ replaceAllFuel tok f l → c ∈ l := by
  intro f
  induction f with
  | zero =>
    intro l c h
    cases l with
    | nil => simp [replaceAllFuel] at h
    | cons a cs => simpa [replaceAllFuel] using h
  | succ f ih =>
    intro l c h
    cases l with
    | nil => simp [replaceAllFuel] at h
    | cons a cs =>
      rw [replaceAllFuel] at h
      split at h
      · exact List.mem_cons_of_mem _ (List.mem_of_mem_drop (ih _ _ h))
      · rcases List.mem_cons.mp h with h | h
        · exact h ▸ List.mem_cons_self a cs
        · exact List.mem_cons_of_mem _ (ih _ _ h)

theorem infix_of_prefixTest {tok l : List Char} (hp : tok.isPrefixOf l) :
    tok <:+: l := by
  obtain ⟨t, rfl⟩ := List.isPrefixOf_iff_prefix.mp hp
  exact ⟨[], t, by simp⟩

theorem replaceAllFuel_of_no_occurrence {tok : List Char} :
    ∀ (f : ℕ) (l : List Char), ¬ tok <:+: l → replaceAllFuel tok f l = l := by
  intro f
  induction f with
  | zero => intro l _; cases l <;> simp [replaceAllFuel]
  | succ f ih =>
    intro l h
    cases l with
    | nil => simp [replaceAllFuel]
    | cons a cs =>
      rw [replaceAllFuel]
      rw [if_neg]
      · rw [ih cs (fun hc => h (List.infix_cons hc))]
      · intro hp
        exact h (infix_of_prefixTest hp)

theorem replaceAll_of_no_occurrence {tok l : List Char} (h : ¬ tok <:+: l) :
    replaceAll tok l = l :=
  replaceAllFuel_of_no_occurrence l.length l h

theorem mem_replaceAll {tok l : List Char} {c : Char}
    (h : c ∈ replaceAll tok l) : c ∈ l :=
  mem_replaceAllFuel l.length l c h

end UtilsNormalize

/-- Unicode whitespace as matched by Python's `str.split()` / `\s`
(restricted to the whitespace characters occurring in this
development). -/
def pySpaceChars : List Char := [' ', '\t', '\n', '\r', '\x0B', '\x0C', ' ', '　']

def isPySpace (c : Char) : Bool := pySpaceChars.contains c

/-- Python truthiness of an optional string (`if area_hint:`): `None`
and the empty string are falsy. -/
def pyTruthy : Option String → Bool
  | none => false
  | some s => !(s = "")

/-- Python `len` of the one-character strings produced by iterating over
a string: always 1 (this makes the source's `len(char) > 1` guard
unsatisfiable). -/
def pyStrLen (_ : Char) : ℕ := 1

/-- Python `str.split()`: split on runs of whitespace, no empty parts.
`acc` holds the current word reversed. -/
def splitWsAux : List Char → List Char → List (List Char)
  | [], acc => if acc.isEmpty then [] else [acc.reverse]
  | c :: cs, acc =>
    if isPySpace c then
      if acc.isEmpty then splitWsAux cs [] else acc.reverse :: splitWsAux cs []
    else splitWsAux cs (c :: acc)

def splitWs (l : List Char) : List (List Char) := splitWsAux l []

namespace Taberogu

open UtilsNormalize

/-- A parsed listing candidate as built by `search_candidates` in
`src/mcp_server/taberogu.py`: the dict always carries the keys
`url`, `name`, `rating`, the latter possibly `None`. -/
structure Cand where
  url : String
  name : List Char
  rating : Option ℚ
deriving DecidableEq

/-- The tiered name-similarity part of `score_candidate`
(`src/mcp_server/taberogu.py` lines 107-140), factored out of the
embedding of `score_candidate` for reuse in lemmas.  It mirrors the
source's if/elif chain over the two `norm_jp`-normalized names. -/
def name_similarity (norm_candidate norm_search : List Char) : ℚ :=
  if norm_candidate = norm_search then 1
  else if isSubstring norm_candidate norm_search || isSubstring norm_search norm_candidate then 9/10
  else if 4 ≤ norm_candidate.length ∧ 4 ≤ norm_search.length ∧
      norm_candidate.take 4 = norm_search.take 4 then 7/10
  else if (splitWs norm_search).any
      (fun word => decide (2 < word.length) && isSubstring word norm_candidate) then 3/5
  else if norm_search.any
      (fun ch => decide (1 < pyStrLen ch) && norm_candidate.contains ch) then 3/10
  else
    let search_terms := (splitWs norm_search).filter (fun t => decide (1 < t.length))
    let candidate_terms := (splitWs norm_candidate).filter (fun t => decide (1 < t.length))
    let overlap := (search_terms.dedup.filter (fun t => candidate_terms.contains t)).length
    if 0 < overlap then
      2/5 + ((overlap : ℚ) / ((max search_terms.length candidate_terms.length : ℕ) : ℚ)) * (3/10)
    else 0

/-- Modeled message of the `TypeError` Python raises at
`c.get("rating", 0) >= 3.4` when the stored rating is `None`
(the exact interpreter text is abstracted; the source truncates it to
300 characters). -/
def typeErrorMsg : String := "TypeError: comparison of NoneType with float"

/-- Embedding of `score_candidate` from `src/mcp_server/taberogu.py`.
Returns `none` to model the raised `TypeError`: the source evaluates
`c.get("rating", 0) >= 3.4`, and because `search_candidates` always
stores the `rating` key (possibly as `None`), a `None` rating reaches
the comparison and raises. -/
def score_candidate (nfkc : List Char → List Char) (c : Cand) (name : List Char)
    (address : Option String) : Option ℚ :=
  let n_sim := name_similarity (norm_jp nfkc c.name) (norm_jp nfkc name)
  match c.rating with
  | some r => some (7/10 * n_sim + if 17/5 ≤ r then 3/10 else 0)
  | none => none

/-- The scoring loop `for c in cands: c["score"] = score_candidate(...)`;
a raised `TypeError` aborts the whole loop (`none`). -/
def scoreAll (nfkc : List Char → List Char) (cands : List Cand) (name : List Char)
    (address : Option String) : Option (List (Cand × ℚ)) :=
  match cands with
  | [] => some []
  | c :: rest =>
    match score_candidate nfkc c name address with
    | none => none
    | some q =>
      match scoreAll nfkc rest name address with
      | none => none
      | some r => some ((c, q) :: r)

/-- Insert into a descending-by-score list, before the first element of
score at most the inserted one (stable). -/
def insertDesc (x : Cand × ℚ) : List (Cand × ℚ) → List (Cand × ℚ)
  | [] => [x]
  | y :: ys => if y.2 ≤ x.2 then x :: y :: ys else y :: insertDesc x ys

/-- `cands.sort(key=lambda x: x["score"], reverse=True)`: Python's sort
is stable, and a stable descending sort by score is unique, so this
stable insertion sort computes the same list. -/
def sortDesc (l : List (Cand × ℚ)) : List (Cand × ℚ) := l.foldr insertDesc []

/-- Lines 167-170 of `resolve_entity`: `s1 = cands[0]["score"]`,
`s2 = cands[1]["score"] if len(cands) > 1 else 0.0`,
`margin = max(0.0, s1 - s2)`, `conf = min(0.95, 0.5*s1 + 0.5*margin)`. -/
def conf_of (sorted : List (Cand × ℚ)) : ℚ :=
  let s1 := (sorted.head?.map Prod.snd).getD 0
  let s2 := ((sorted.drop 1).head?.map Prod.snd).getD 0
  min (19/20) (1/2 * s1 + 1/2 * max 0 (s1 - s2))

/-- Embedding of the result record `ResolveOut`. -/
structure ResolveOut where
  status : String
  best_url : Option String
  candidates : List (Cand × ℚ)
  confidence : ℚ
  retryable : Bool
  provenance : List (String × String)
deriving DecidableEq

/-- The terminal decision of `resolve_entity` (lines 190-196): below 0.7
confidence return `ambiguous` with the top 3 candidates, otherwise `ok`
with the best candidate's url and the top 3 candidates. -/
def decide_from (sorted : List (Cand × ℚ)) (conf : ℚ) : ResolveOut :=
  if conf < 7/10 then
    ⟨"ambiguous", none, sorted.take 3, conf, false, [("method", "tabelog_search")]⟩
  else
    ⟨"ok", sorted.head?.map (fun p => p.1.url), sorted.take 3, conf, false,
      [("method", "tabelog_search")]⟩

/-- The `not_found` result of `resolve_entity` (line 159-161). -/
def notFoundOut : ResolveOut :=
  ⟨"not_found", none, [], 0, false, [("method", "tabelog_search")]⟩

/-- The `error` result of `resolve_entity` (line 197-198); the caught
exception text is bounded to 300 characters in the source. -/
def errorOut : ResolveOut := ⟨"error", none, [], 0, false, [("error", typeErrorMsg)]⟩

/-- Embedding of `resolve_entity` from `src/mcp_server/taberogu.py`.
The network search is abstracted as `search`, mapping the area-hint
argument of `search_candidates` to the parsed candidate list (the
source's `search_candidates` returns `[]` on any non-200 response or
fetch/parse failure, so totality is faithful).  The `except` clause of
the source catches the scoring `TypeError` and yields an `error`
result.  The retry branch is guarded by `conf < 0.7` and then
`area_hint and conf < 0.5` exactly as in the source. -/
def resolve_entity (nfkc : List Char → List Char) (search : Option String → List Cand)
    (name : List Char) (address : Option String) (area_hint : Option String) : ResolveOut :=
  let cands := search area_hint
  if cands.isEmpty then notFoundOut
  else
    match scoreAll nfkc cands name address with
    | none => errorOut
    | some scored =>
      let sorted := sortDesc scored
      let conf := conf_of sorted
      if conf < 7/10 then
        if pyTruthy area_hint = true ∧ conf < 1/2 then
          let alt := search none
          if alt.isEmpty then decide_from sorted conf
          else
            match scoreAll nfkc alt name address with
            | none => errorOut
            | some altScored =>
              let altSorted := sortDesc altScored
              let altConf := conf_of altSorted
              if conf < altConf then decide_from altSorted altConf
              else decide_from sorted conf
        else decide_from sorted conf
      else decide_from sorted conf

end Taberogu

namespace Yelp

/-- Review record from `schema.py` (`YelpReview`); never populated by
the search paths modeled here. -/
structure YelpReview where
  text : String
  rating : ℤ
  user_name : String
  time_created : String
  url : Option String
deriving DecidableEq

/-- Output record from `schema.py` (`YelpBusinessOutput`). -/
structure YelpBusinessOutput where
  name : List Char
  yelp_rating : Option ℚ
  yelp_review_count : Option ℤ
  yelp_url : Option String
  reviews : List YelpReview
deriving DecidableEq

/-- A business object of the parsed Yelp JSON: each field is read with
`.get`, so each may be absent. -/
structure YelpBusiness where
  name : Option (List Char)
  rating : Option ℚ
  review_count : Option ℤ
  url : Option String
deriving DecidableEq

/-- The HTTP response of the Yelp search call: status code, body text,
and the parsed `businesses` array. -/
structure YelpHttpResp where
  status_code : ℤ
  text : String
  businesses : List YelpBusiness
deriving DecidableEq

/-- Python `str.strip()` over the modeled whitespace set. -/
def stripWs (l : List Char) : List Char :=
  ((l.dropWhile isPySpace).reverse.dropWhile isPySpace).reverse

/-- One step of `re.sub(r"\s+", " ", s)`: every maximal whitespace run
becomes a single space. -/
def collapseWs : List Char → List Char
  | [] => []
  | [c] => if isPySpace c then [' '] else [c]
  | c :: d :: cs =>
    if isPySpace c && isPySpace d then collapseWs (d :: cs)
    else (if isPySpace c then ' ' else c) :: collapseWs (d :: cs)

/-- Python's regex `\w` (word character): alphanumerics and underscore;
non-ASCII characters are treated as word characters, the direction
Python's Unicode-aware `\w` takes for the kana/CJK names this code
handles. -/
def pyIsWordChar (c : Char) : Bool :=
  c.isAlphanum || c = '_' || decide (128 ≤ c.toNat)

/-- Python `str.lower()` (ASCII case folding; the Japanese suffixes in
the table have no case). -/
def pyLower (c : Char) : Char := c.toLower

/-- The suffix table of `normalize_restaurant_name` in
`src/mcp_server/yelp.py`, in source order. -/
def suffixes_to_remove : List (List Char) :=
  ["restaurant".toList, "cafe".toList, "coffee".toList, "bar".toList,
   "kitchen".toList, "dining".toList, "food".toList,
   "レストラン".toList, "カフェ".toList, "バー".toList,
   "キッチン".toList, "ダイニング".toList, "フード".toList]

/-- Embedding of `normalize_restaurant_name` from
`src/mcp_server/yelp.py`: lowercase, strip each listed suffix once in
order (with a strip() after each removal), drop non-word non-space
characters, collapse whitespace runs, strip. -/
def normalize_restaurant_name (name : List Char) : List Char :=
  if name.isEmpty then []
  else
    let normalized := name.map pyLower
    let normalized := suffixes_to_remove.foldl
      (fun acc suf =>
        if suf.isSuffixOf acc then stripWs (acc.take (acc.length - suf.length)) else acc)
      normalized
    let normalized := normalized.filter (fun c => pyIsWordChar c || isPySpace c)
    stripWs (collapseWs normalized)

/-- Embedding of `calculate_name_similarity` from
`src/mcp_server/yelp.py`.  `ratio` abstracts
`difflib.SequenceMatcher(None, a, b).ratio()`, an external-library
capability (like the embedding client); the repository code only
normalizes both names and thresholds the returned ratio. -/
def calculate_name_similarity (ratio : List Char → List Char → ℚ)
    (name1 name2 : List Char) : ℚ :=
  if name1.isEmpty || name2.isEmpty then 0
  else ratio (normalize_restaurant_name name1) (normalize_restaurant_name name2)

/-- Embedding of `is_reliable_yelp_match` (default `min_similarity` is
0.7 at the call site). -/
def is_reliable_yelp_match (ratio : List Char → List Char → ℚ)
    (google_name yelp_name : List Char) (min_similarity : ℚ) : Bool :=
  decide (min_similarity ≤ calculate_name_similarity ratio google_name yelp_name)

/-- Embedding of `_search_yelp_business_internal` from
`src/mcp_server/yelp.py`.  `api_key` models `os.getenv("YELP_API_KEY")`;
`http` models the outcome of the `requests.get` call (an `Except.error`
is a raised request exception).  `Except.error` results model
exceptions raised past the function boundary: the missing-key raise is
outside the `try`, and the non-200 raise is re-raised by the `except`
clause wrapped in "Failed to search for restaurant on Yelp: ". -/
def search_yelp_business_internal (ratio : List Char → List Char → ℚ)
    (api_key : Option String) (http : Except String YelpHttpResp)
    (restaurant_name : List Char) (location : Option String) :
    Except String YelpBusinessOutput :=
  match api_key with
  | none => .error "YELP_API_KEY is not set"
  | some _ =>
    match http with
    | .error e => .error ("Failed to search for restaurant on Yelp: " ++ e)
    | .ok resp =>
      if resp.status_code ≠ 200 then
        .error ("Failed to search for restaurant on Yelp: Yelp search failed: " ++ resp.text)
      else
        match resp.businesses with
        | [] => .ok ⟨restaurant_name, none, none, none, []⟩
        | business :: _ =>
          let business_name := business.name.getD restaurant_name
          if is_reliable_yelp_match ratio restaurant_name business_name (7/10) then
            .ok ⟨business_name, business.rating, business.review_count, business.url, []⟩
          else
            .ok ⟨restaurant_name, none, none, none, []⟩

/-- The loop body of `yelp_enhance_google_maps_results`: a raised
exception is caught per item and replaced by the all-null output. -/
def enhanceOne (ratio : List Char → List Char → ℚ) (api_key : Option String)
    (http : Except String YelpHttpResp) (restaurant_name : List Char)
    (location : Option String) : YelpBusinessOutput :=
  match search_yelp_business_internal ratio api_key http restaurant_name location with
  | .ok r => r
  | .error _ => ⟨restaurant_name, none, none, none, []⟩

/-- Embedding of `yelp_enhance_google_maps_results`: each restaurant is
processed independently; `http` gives each name's response. -/
def yelp_enhance_google_maps_results (ratio : List Char → List Char → ℚ)
    (api_key : Option String) (http : List Char → Except String YelpHttpResp)
    (restaurant_names : List (List Char)) (location : Option String) :
    List YelpBusinessOutput :=
  restaurant_names.map (fun n => enhanceOne ratio api_key (http n) n location)

/-- A concrete stand-in for `SequenceMatcher.ratio` used in closed
statements: always 0. -/
def zeroRatio : List Char → List Char → ℚ := fun _ _ => 0

end Yelp

namespace Taberogu

open UtilsNormalize

theorem name_similarity_nonneg (a b : List Char) : 0 ≤ name_similarity a b := by
  unfold name_similarity
  split_ifs <;> try norm_num
  split
  · exact add_nonneg (by norm_num) (mul_nonneg (div_nonneg (Nat.cast_nonneg _)
      (le_trans (Nat.cast_nonneg _) le_sup_left)) (by norm_num))
  · norm_num

theorem score_candidate_nonneg {nfkc : List Char → List Char} {c : Cand}
    {name : List Char} {address : Option String}
    {q : ℚ} (h : score_candidate nfkc c name address = some q) : 0 ≤ q := by
  unfold score_candidate at h
  cases hr : c.rating with
  | none => rw [hr] at h; simp at h
  | some r =>
    rw [hr] at h
    simp only [Option.some.injEq] at h
    subst h
    have hn := name_similarity_nonneg (norm_jp nfkc c.name) (norm_jp nfkc name)
    split_ifs <;> linarith

theorem mem_insertDesc {x p : Cand × ℚ} {l : List (Cand × ℚ)}
    (h : p ∈ insertDesc x l) : p = x ∨ p ∈ l := by
  induction l with
  | nil => simpa [insertDesc] using h
  | cons y ys ih =>
    rw [insertDesc] at h
    split at h
    · simpa using h
    · rcases List.mem_cons.mp h with h | h
      · exact Or.inr (h ▸ List.mem_cons_self y ys)
      · rcases ih h with h | h
        · exact Or.inl h
        · exact Or.inr (List.mem_cons_of_mem _ h)

theorem mem_sortDesc {p : Cand × ℚ} {l : List (Cand × ℚ)}
    (h : p ∈ sortDesc l) : p ∈ l := by
  induction l with
  | nil => simp [sortDesc] at h
  | cons x xs ih =>
    rcases mem_insertDesc (by simpa [sortDesc] using h) with h | h
    · exact h ▸ List.mem_cons_self x xs
    · exact List.mem_cons_of_mem _ (ih (by simpa [sortDesc] using h))

theorem scoreAll_mem {nfkc : List Char → List Char} {cands : List Cand}
    {name : List Char} {address : Option String}
    {scored : List (Cand × ℚ)} (h : scoreAll nfkc cands name address = some scored) :
    ∀ p ∈ scored, score_candidate nfkc p.1 name address = some p.2 := by
  induction cands generalizing scored with
  | nil =>
    rw [scoreAll] at h
    simp only [Option.some.injEq] at h
    subst h
    simp
  | cons c rest ih =>
    rw [scoreAll] at h
    cases hc : score_candidate nfkc c name address with
    | none => rw [hc] at h; simp at h
    | some q =>
      rw [hc] at h
      cases hr : scoreAll nfkc rest name address with
      | none => rw [hr] at h; simp at h
      | some r =>
        rw [hr] at h
        simp only [Option.some.injEq] at h
        subst h
        intro p hp
        rcases List.mem_cons.mp hp with h | h
        · subst h; exact hc
        · exact ih hr p h

theorem conf_of_bounds {l : List (Cand × ℚ)} (h : ∀ p ∈ l, 0 ≤ p.2) :
    0 ≤ conf_of l ∧ conf_of l ≤ 19/20 := by
  have hs1 : 0 ≤ (l.head?.map Prod.snd).getD 0 := by
    cases l with
    | nil => norm_num
    | cons a t =>
      simpa using h a (List.mem_cons_self a t)
  refine ⟨?_, min_le_left _ _⟩
  apply le_min
  · norm_num
  · have hm : (0 : ℚ) ≤ max 0 ((l.head?.map Prod.snd).getD 0
        - ((l.drop 1).head?.map Prod.snd).getD 0) := le_max_left _ _
    linarith

/-- Every run of `resolve_entity` ends in the `not_found` record, the
`error` record, or the terminal decision applied to the sorted scores of
a successfully scored candidate list (from the first or the retry
search). -/
theorem resolve_entity_shape (nfkc : List Char → List Char)
    (search : Option String → List Cand) (name : List Char)
    (address area_hint : Option String) :
    resolve_entity nfkc search name address area_hint = notFoundOut ∨
    resolve_entity nfkc search name address area_hint = errorOut ∨
    ∃ sc : List (Cand × ℚ),
      (scoreAll nfkc (search area_hint) name address = some sc ∨
        scoreAll nfkc (search none) name address = some sc) ∧
      resolve_entity nfkc search name address area_hint
        = decide_from (sortDesc sc) (conf_of (sortDesc sc)) := by
  simp only [resolve_entity]
  by_cases he : (search area_hint).isEmpty = true
  · rw [if_pos he]
    exact Or.inl rfl
  · rw [if_neg he]
    cases hs : scoreAll nfkc (search area_hint) name address with
    | none => exact Or.inr (Or.inl rfl)
    | some scored =>
      dsimp only
      by_cases h1 : conf_of (sortDesc scored) < 7/10
      · rw [if_pos h1]
        by_cases h2 : pyTruthy area_hint = true ∧ conf_of (sortDesc scored) < 1/2
        · rw [if_pos h2]
          by_cases h3 : (search none).isEmpty = true
          · rw [if_pos h3]
            exact Or.inr (Or.inr ⟨scored, Or.inl rfl, rfl⟩)
          · rw [if_neg h3]
            cases halt : scoreAll nfkc (search none) name address with
            | none => exact Or.inr (Or.inl rfl)
            | some altScored =>
              dsimp only
              by_cases h4 : conf_of (sortDesc scored) < conf_of (sortDesc altScored)
              · rw [if_pos h4]
                exact Or.inr (Or.inr ⟨altScored, Or.inr rfl, rfl⟩)
              · rw [if_neg h4]
                exact Or.inr (Or.inr ⟨scored, Or.inl rfl, rfl⟩)
        · rw [if_neg h2]
          exact Or.inr (Or.inr ⟨scored, Or.inl rfl, rfl⟩)
      · rw [if_neg h1]
        exact Or.inr (Or.inr ⟨scored, Or.inl rfl, rfl⟩)

/-- Invariants of the terminal decision: one of the two statuses, at
most 3 candidates, confidence within `[0, 0.95]` when all scores are
non-negative. -/
theorem decide_from_sorted_invariants {scored : List (Cand × ℚ)}
    (hpos : ∀ p ∈ scored, 0 ≤ p.2) :
    ((decide_from (sortDesc scored) (conf_of (sortDesc scored))).status = "ok" ∨
      (decide_from (sortDesc scored) (conf_of (sortDesc scored))).status = "ambiguous") ∧
    (decide_from (sortDesc scored) (conf_of (sortDesc scored))).candidates.length ≤ 3 ∧
    0 ≤ (decide_from (sortDesc scored) (conf_of (sortDesc scored))).confidence ∧
    (decide_from (sortDesc scored) (conf_of (sortDesc scored))).confidence ≤ 19/20 := by
  have hpos2 : ∀ p ∈ sortDesc scored, 0 ≤ p.2 := fun p hp => hpos p (mem_sortDesc hp)
  obtain ⟨h0, h95⟩ := conf_of_bounds hpos2
  unfold decide_from
  split_ifs with hc
  · exact ⟨Or.inr rfl, List.length_take_le _ _, h0, h95⟩
  · exact ⟨Or.inl rfl, List.length_take_le _ _, h0, h95⟩

end Taberogu

end ReviewAgent

namespace ReviewAgent

open Taberogu in
/-- Field-level description of the terminal decision `decide_from`. -/
theorem decide_from_spec (sorted : List (Cand × ℚ)) (conf : ℚ) :
    (decide_from sorted conf).confidence = conf ∧
    ((decide_from sorted conf).status = "ok" ↔ 7/10 ≤ conf) ∧
    ((decide_from sorted conf).status = "ok" →
      (decide_from sorted conf).best_url = sorted.head?.map (fun p => p.1.url)) ∧
    ((decide_from sorted conf).status = "ambiguous" ↔ conf < 7/10) ∧
    (decide_from sorted conf).candidates = sorted.take 3 := by
  unfold decide_from
  split_ifs with hc
  · refine ⟨rfl, ?_, ?_, ?_, rfl⟩
    · exact ⟨fun hs => absurd hs (by simp), fun hs => absurd hc (not_lt.mpr hs)⟩
    · exact fun hs => absurd hs (by simp)
    · exact ⟨fun _ => hc, fun _ => rfl⟩
  · refine ⟨rfl, ⟨fun _ => not_lt.mp hc, fun _ => rfl⟩, fun _ => rfl, ?_, rfl⟩
    exact ⟨fun hs => absurd hs (by simp), fun hlt => absurd hlt hc⟩

open Taberogu in
/-- C6: for every non-empty scored candidate list, with `s1`, `s2` the
top two scores of the descending sort (`s2 = 0` when only one
candidate), the resolver's terminal confidence equals
`min(0.95, 0.5*s1 + 0.5*max(0, s1 - s2))`, the terminal status is `ok`
with the best candidate's url exactly when that confidence is at least
0.7, and `ambiguous` with the top 3 candidates exactly otherwise. -/
theorem resolver_confidence_calibration (scored : List (Cand × ℚ)) (h : scored ≠ []) :
    let sorted := sortDesc scored
    let s1 := (sorted.head?.map Prod.snd).getD 0
    let s2 := ((sorted.drop 1).head?.map Prod.snd).getD 0
    let conf := conf_of sorted
    let r := decide_from sorted conf
    conf = min (19/20) (1/2 * s1 + 1/2 * max 0 (s1 - s2)) ∧
    r.confidence = conf ∧
    (r.status = "ok" ↔ 7/10 ≤ conf) ∧
    (r.status = "ok" → r.best_url = sorted.head?.map (fun p => p.1.url)) ∧
    (r.status = "ambiguous" ↔ conf < 7/10) ∧
    r.candidates = sorted.take 3 := by
  intro sorted s1 s2 conf r
  exact ⟨rfl, decide_from_spec sorted conf⟩

open Taberogu in
/-- Witness for C6 at the tied list with scores `[0.9, 0.9]`:
confidence `0.45`, status `ambiguous`. -/
theorem resolver_confidence_calibration_witness :
    ([(Cand.mk "https://tabelog.com/a" ['a'] (some 3), 9/10),
      (Cand.mk "https://tabelog.com/b" ['b'] (some 3), 9/10)] : List (Cand × ℚ)) ≠ [] ∧
    conf_of (sortDesc [(Cand.mk "https://tabelog.com/a" ['a'] (some 3), 9/10),
      (Cand.mk "https://tabelog.com/b" ['b'] (some 3), 9/10)]) = 9/20 ∧
    (decide_from (sortDesc [(Cand.mk "https://tabelog.com/a" ['a'] (some 3), 9/10),
        (Cand.mk "https://tabelog.com/b" ['b'] (some 3), 9/10)])
      (conf_of (sortDesc [(Cand.mk "https://tabelog.com/a" ['a'] (some 3), 9/10),
        (Cand.mk "https://tabelog.com/b" ['b'] (some 3), 9/10)]))).status = "ambiguous" ∧
    (let sorted := sortDesc [(Cand.mk "https://tabelog.com/a" ['a'] (some 3), 9/10),
        (Cand.mk "https://tabelog.com/b" ['b'] (some 3), 9/10)]
     let s1 := (sorted.head?.map Prod.snd).getD 0
     let s2 := ((sorted.drop 1).head?.map Prod.snd).getD 0
     let conf := conf_of sorted
     let r := decide_from sorted conf
     conf = min (19/20) (1/2 * s1 + 1/2 * max 0 (s1 - s2)) ∧
     r.confidence = conf ∧
     (r.status = "ok" ↔ 7/10 ≤ conf) ∧
     (r.status = "ok" → r.best_url = sorted.head?.map (fun p => p.1.url)) ∧
     (r.status = "ambiguous" ↔ conf < 7/10) ∧
     r.candidates = sorted.take 3) := by
  have hsort : sortDesc [(Cand.mk "https://tabelog.com/a" ['a'] (some 3), 9/10),
      (Cand.mk "https://tabelog.com/b" ['b'] (some 3), 9/10)]
      = [(Cand.mk "https://tabelog.com/a" ['a'] (some 3), 9/10),
         (Cand.mk "https://tabelog.com/b" ['b'] (some 3), 9/10)] := by
    norm_num [sortDesc, insertDesc]
  have hconf : conf_of (sortDesc [(Cand.mk "https://tabelog.com/a" ['a'] (some 3), 9/10),
      (Cand.mk "https://tabelog.com/b" ['b'] (some 3), 9/10)]) = 9/20 := by
    rw [hsort]
    norm_num [conf_of, min_def, max_def]
  refine ⟨by simp, hconf, ?_, resolver_confidence_calibration _ (by simp)⟩
  rw [hconf]
  norm_num [decide_from]

open Taberogu in
/-- C10: every `ResolutionResult` returned by `resolve_entity` has a
status among ok/ambiguous/not_found/error, at most 3 candidates, and a
confidence in `[0, 0.95]`. -/
theorem resolve_entity_result_invariants (nfkc : List Char → List Char)
    (search : Option String → List Cand)
    (name : List Char) (address area_hint : Option String) :
    ((resolve_entity nfkc search name address area_hint).status = "ok" ∨
      (resolve_entity nfkc search name address area_hint).status = "ambiguous" ∨
      (resolve_entity nfkc search name address area_hint).status = "not_found" ∨
      (resolve_entity nfkc search name address area_hint).status = "error") ∧
    (resolve_entity nfkc search name address area_hint).candidates.length ≤ 3 ∧
    0 ≤ (resolve_entity nfkc search name address area_hint).confidence ∧
    (resolve_entity nfkc search name address area_hint).confidence ≤ 19/20 := by
  rcases resolve_entity_shape nfkc search name address area_hint with h | h | ⟨sc, hsc, h⟩
  · rw [h]
    exact ⟨Or.inr (Or.inr (Or.inl rfl)), by norm_num [notFoundOut],
      by norm_num [notFoundOut], by norm_num [notFoundOut]⟩
  · rw [h]
    exact ⟨Or.inr (Or.inr (Or.inr rfl)), by norm_num [errorOut],
      by norm_num [errorOut], by norm_num [errorOut]⟩
  · have hpos : ∀ p ∈ sc, 0 ≤ p.2 := by
      rcases hsc with hs | hs
      · exact fun p hp => score_candidate_nonneg (scoreAll_mem hs p hp)
      · exact fun p hp => score_candidate_nonneg (scoreAll_mem hs p hp)
    obtain ⟨hst, hlen, h0, h95⟩ := decide_from_sorted_invariants hpos
    rw [h]
    exact ⟨hst.imp id Or.inl, hlen, h0, h95⟩

namespace Taberogu

open UtilsNormalize

/-- Query name used in the concrete resolution runs below. -/
def cexName : List Char := ['a', 'b', 'c', 'd', 'e']

/-- A candidate whose normalized name is a strict substring of the
query (similarity tier 0.9) with a rating below the 3.4 bonus bar:
score `0.7 * 0.9 = 0.63`. -/
def cexC1 : Cand := ⟨"https://tabelog.com/r1", ['a', 'b', 'c', 'd'], some 3⟩

/-- A candidate matching the query exactly with a rating above 3.4:
score `0.7 * 1.0 + 0.3 = 1.0`. -/
def cexC2 : Cand := ⟨"https://tabelog.com/r2", ['a', 'b', 'c', 'd', 'e'], some 4⟩

/-- Search oracle for the C1 counterexample: with any area hint the
directory returns only the partial match, without it the exact match. -/
def cexSearch : Option String → List Cand
  | some _ => [cexC1]
  | none => [cexC2]

/-- Search oracle for the amended C1 witness: with an area hint two
tied partial matches (confidence 0.315), without it the exact match. -/
def amSearch : Option String → List Cand
  | some _ => [cexC1, cexC1]
  | none => [cexC2]

theorem nsim_cexC1 :
    name_similarity (norm_jp nfkcId cexC1.name) (norm_jp nfkcId cexName) = 9/10 := by
  have e1 : norm_jp nfkcId cexC1.name = ['a', 'b', 'c', 'd'] := by decide
  have e2 : norm_jp nfkcId cexName = ['a', 'b', 'c', 'd', 'e'] := by decide
  rw [e1, e2]
  unfold name_similarity
  rw [if_neg (by decide), if_pos (by decide)]

theorem nsim_cexC2 :
    name_similarity (norm_jp nfkcId cexC2.name) (norm_jp nfkcId cexName) = 1 := by
  have e1 : norm_jp nfkcId cexC2.name = ['a', 'b', 'c', 'd', 'e'] := by decide
  have e2 : norm_jp nfkcId cexName = ['a', 'b', 'c', 'd', 'e'] := by decide
  rw [e1, e2]
  unfold name_similarity
  rw [if_pos rfl]

theorem score_cexC1 : score_candidate nfkcId cexC1 cexName none = some (63/100) := by
  simp only [score_candidate, nsim_cexC1]
  norm_num [cexC1]

theorem score_cexC2 : score_candidate nfkcId cexC2 cexName none = some 1 := by
  simp only [score_candidate, nsim_cexC2]
  norm_num [cexC2]

theorem scoreAll_cex1 : scoreAll nfkcId [cexC1] cexName none = some [(cexC1, 63/100)] := by
  simp [scoreAll, score_cexC1]

theorem scoreAll_cex2 : scoreAll nfkcId [cexC2] cexName none = some [(cexC2, 1)] := by
  simp [scoreAll, score_cexC2]

theorem scoreAll_am : scoreAll nfkcId [cexC1, cexC1] cexName none
    = some [(cexC1, 63/100), (cexC1, 63/100)] := by
  simp [scoreAll, score_cexC1]

theorem sort_cex1 : sortDesc [(cexC1, (63 : ℚ)/100)] = [(cexC1, 63/100)] := rfl

theorem sort_cex2 : sortDesc [(cexC2, (1 : ℚ))] = [(cexC2, 1)] := rfl

theorem sort_am : sortDesc [(cexC1, (63 : ℚ)/100), (cexC1, 63/100)]
    = [(cexC1, 63/100), (cexC1, 63/100)] := by
  norm_num [sortDesc, insertDesc]

theorem conf_cex1 : conf_of (sortDesc [(cexC1, (63 : ℚ)/100)]) = 63/100 := by
  rw [sort_cex1]
  norm_num [conf_of, min_def, max_def]

theorem conf_cex2 : conf_of (sortDesc [(cexC2, (1 : ℚ))]) = 19/20 := by
  rw [sort_cex2]
  norm_num [conf_of, min_def, max_def]

theorem conf_am : conf_of (sortDesc [(cexC1, (63 : ℚ)/100), (cexC1, 63/100)]) = 63/200 := by
  rw [sort_am]
  norm_num [conf_of, min_def, max_def]

/-- Full evaluation of the counterexample run: the resolver keeps the
first search's 0.63-confidence ambiguous answer. -/
theorem cex_resolve_eval : resolve_entity nfkcId cexSearch cexName none (some "tokyo")
    = ⟨"ambiguous", none, [(cexC1, 63/100)], 63/100, false,
        [("method", "tabelog_search")]⟩ := by
  have hse : cexSearch (some "tokyo") = [cexC1] := rfl
  simp only [resolve_entity, hse, scoreAll_cex1]
  have hc : conf_of (sortDesc [(cexC1, (63 : ℚ)/100)]) = 63/100 := conf_cex1
  rw [hc]
  rw [if_neg (by norm_num : ¬ List.isEmpty [cexC1] = true)]
  rw [if_pos (by norm_num : (63 : ℚ)/100 < 7/10)]
  rw [if_neg (fun hand => by norm_num at hand :
    ¬ (pyTruthy (some "tokyo") = true ∧ (63 : ℚ)/100 < 1/2))]
  unfold decide_from
  rw [if_pos (by norm_num : (63 : ℚ)/100 < 7/10)]
  rw [sort_cex1]
  rfl

/-- C1 (amended): the hint-dropping retry fires only below confidence
0.5, not 0.7.  With a truthy area hint, a first search that scored
successfully to a non-empty list with confidence BELOW 0.5, and a retry
without the hint that also scores successfully to a non-empty list with
strictly higher confidence, `resolve_entity` returns the terminal
decision on the retry's sorted candidate set. -/
theorem resolve_entity_retry_below_half (nfkc : List Char → List Char)
    (search : Option String → List Cand)
    (name : List Char) (address area_hint : Option String)
    (scored altScored : List (Cand × ℚ))
    (hhint : pyTruthy area_hint = true)
    (hne : (search area_hint).isEmpty = false)
    (hs : scoreAll nfkc (search area_hint) name address = some scored)
    (hconf : conf_of (sortDesc scored) < 1/2)
    (haltne : (search none).isEmpty = false)
    (halt : scoreAll nfkc (search none) name address = some altScored)
    (hgt : conf_of (sortDesc scored) < conf_of (sortDesc altScored)) :
    resolve_entity nfkc search name address area_hint
      = decide_from (sortDesc altScored) (conf_of (sortDesc altScored)) := by
  simp only [resolve_entity, hne, hs, halt, haltne]
  rw [if_neg Bool.false_ne_true]
  rw [if_pos (lt_trans hconf (by norm_num : (1 : ℚ)/2 < 7/10))]
  rw [if_pos ⟨hhint, hconf⟩]
  rw [if_neg Bool.false_ne_true]
  rw [if_pos hgt]

/-- Witness for the amended C1: two tied partial matches under the hint
give confidence `0.315 < 0.5`; the hint-dropped retry scores the exact
match at confidence `0.95`, and the resolver adopts it. -/
theorem resolve_entity_retry_below_half_witness :
    conf_of (sortDesc [(cexC1, (63 : ℚ)/100), (cexC1, 63/100)]) < 1/2 ∧
    conf_of (sortDesc [(cexC1, (63 : ℚ)/100), (cexC1, 63/100)])
      < conf_of (sortDesc [(cexC2, (1 : ℚ))]) ∧
    resolve_entity nfkcId amSearch cexName none (some "tokyo")
      = decide_from (sortDesc [(cexC2, (1 : ℚ))]) (conf_of (sortDesc [(cexC2, (1 : ℚ))])) := by
  refine ⟨by rw [conf_am]; norm_num, by rw [conf_am, conf_cex2]; norm_num, ?_⟩
  exact resolve_entity_retry_below_half nfkcId amSearch cexName none (some "tokyo")
    [(cexC1, 63/100), (cexC1, 63/100)] [(cexC2, 1)]
    (by decide) rfl scoreAll_am
    (by rw [conf_am]; norm_num) rfl scoreAll_cex2
    (by rw [conf_am, conf_cex2]; norm_num)

/-- C1 counterexample: a resolution call whose first search has
confidence `0.63` (below 0.7, at least 0.5) with an area hint supplied
performs NO second search: although the hint-dropped retry would reach
confidence `0.95 > 0.63`, the resolver returns the original ambiguous
result with confidence `0.63`, not the retry's candidate set. -/
theorem resolve_entity_no_retry_between_05_07 :
    pyTruthy (some "tokyo") = true ∧
    conf_of (sortDesc ((scoreAll nfkcId (cexSearch (some "tokyo")) cexName none).getD [])) = 63/100 ∧
    (63 : ℚ)/100 < 7/10 ∧
    conf_of (sortDesc ((scoreAll nfkcId (cexSearch none) cexName none).getD [])) = 19/20 ∧
    (63 : ℚ)/100 < 19/20 ∧
    (resolve_entity nfkcId cexSearch cexName none (some "tokyo")).status = "ambiguous" ∧
    (resolve_entity nfkcId cexSearch cexName none (some "tokyo")).confidence = 63/100 ∧
    (resolve_entity nfkcId cexSearch cexName none (some "tokyo")).candidates = [(cexC1, 63/100)] := by
  have h1 : cexSearch (some "tokyo") = [cexC1] := rfl
  have h2 : cexSearch none = [cexC2] := rfl
  refine ⟨by decide, ?_, by norm_num, ?_, by norm_num, ?_, ?_, ?_⟩
  · rw [h1, scoreAll_cex1]
    exact conf_cex1
  · rw [h2, scoreAll_cex2]
    exact conf_cex2
  · rw [cex_resolve_eval]
  · rw [cex_resolve_eval]
  · rw [cex_resolve_eval]

/-- C4 (evaluation at the failing input): a candidate whose on-page
rating is `None` (exactly what `search_candidates` stores when no
rating element parses) makes `score_candidate` raise the modeled
`TypeError` (`none`) instead of totally evaluating with a 0 rating
bonus; consequently a resolution call whose search succeeded takes the
`error` branch. -/
theorem score_candidate_none_rating_raises :
    score_candidate nfkcId ⟨"https://tabelog.com/x", ['a', 'b'], none⟩ ['a', 'b'] none = none ∧
    resolve_entity nfkcId (fun _ => [⟨"https://tabelog.com/x", ['a', 'b'], none⟩])
      ['a', 'b'] none none = errorOut ∧
    errorOut.status = "error" ∧ errorOut.confidence = 0 :=
  ⟨rfl, rfl, rfl, rfl⟩

end Taberogu

end ReviewAgent

namespace ReviewAgent

open StandarizeReview DbSearch

open UtilsNormalize in
/-- C5 counterexample: `norm_jp` is not idempotent.  On `本本店店` —
a string of NFKC-inert CJK ideographs, so real NFKC is the identity
(`nfkcId`) on it and on every string arising from it — deleting the
first (overlapping) occurrence of `本店` re-assembles a new occurrence:
one application yields `本店`, a second yields the empty string. -/
theorem norm_jp_not_idempotent :
    norm_jp nfkcId (norm_jp nfkcId ['本', '本', '店', '店'])
      ≠ norm_jp nfkcId ['本', '本', '店', '店'] ∧
    norm_jp nfkcId ['本', '本', '店', '店'] = ['本', '店'] ∧
    norm_jp nfkcId (norm_jp nfkcId ['本', '本', '店', '店']) = [] := by decide

open UtilsNormalize in
/-- C5 (amended): for any normalizer `nfkc`, `norm_jp` is idempotent on
every input whose normalized form is an `nfkc` fixed point and contains
no occurrence of the branch-suffix tokens `本店`, `別館`, `西口店`,
`東口店`.  In general idempotence fails two ways: suffix deletion can
assemble a fresh token occurrence, and bracket/whitespace deletion can
create a sequence that NFKC newly recomposes, so a second application
differs. -/
theorem norm_jp_idempotent_of_nfkc_fixed_no_suffix_token
    (nfkc : List Char → List Char) (s : List Char)
    (hfix : nfkc (norm_jp nfkc s) = norm_jp nfkc s)
    (h1 : ¬ tokHonten <:+: norm_jp nfkc s)
    (h2 : ¬ tokBekkan <:+: norm_jp nfkc s)
    (h3 : ¬ tokNishiguchi <:+: norm_jp nfkc s)
    (h4 : ¬ tokHigashiguchi <:+: norm_jp nfkc s) :
    norm_jp nfkc (norm_jp nfkc s) = norm_jp nfkc s := by
  set y := norm_jp nfkc s with hy
  have hmem : ∀ c ∈ y, (!strippedChar c) = true := by
    intro c hc
    rw [hy] at hc
    simp only [norm_jp] at hc
    have hc2 := mem_replaceAll (mem_replaceAll (mem_replaceAll (mem_replaceAll hc)))
    exact (List.mem_filter.mp hc2).2
  have hfilter : y.filter (fun c => !strippedChar c) = y :=
    List.filter_eq_self.mpr hmem
  simp only [norm_jp]
  rw [hfix, hfilter, replaceAll_of_no_occurrence h1,
    replaceAll_of_no_occurrence h2, replaceAll_of_no_occurrence h3,
    replaceAll_of_no_occurrence h4]

open UtilsNormalize in
/-- Witness for the amended C5: `abc 本店` (NFKC-inert characters, so
`nfkcId` agrees with real NFKC on every string involved) normalizes to
`abc`, a token-free NFKC fixed point, on which a second application is
the identity. -/
theorem norm_jp_idempotent_witness :
    nfkcId (norm_jp nfkcId ['a', 'b', 'c', ' ', '本', '店'])
      = norm_jp nfkcId ['a', 'b', 'c', ' ', '本', '店'] ∧
    (¬ tokHonten <:+: norm_jp nfkcId ['a', 'b', 'c', ' ', '本', '店']) ∧
    norm_jp nfkcId (norm_jp nfkcId ['a', 'b', 'c', ' ', '本', '店'])
      = norm_jp nfkcId ['a', 'b', 'c', ' ', '本', '店'] :=
  ⟨rfl, by decide,
   norm_jp_idempotent_of_nfkc_fixed_no_suffix_token nfkcId _ rfl
     (by decide) (by decide) (by decide) (by decide)⟩

/-- C7: if every provider's review count is absent or zero, the
standardized score is `None`, never a numeric default. -/
theorem standardize_total_zero_returns_none
    (gs ts ys : Option ℚ) (gc tc yc : Option ℤ)
    (hg : gc = none ∨ gc = some 0)
    (ht : tc = none ∨ tc = some 0)
    (hy : yc = none ∨ yc = some 0) :
    compute_standarized_review_score gs gc ts tc ys yc = none := by
  have hg0 : pyCount gc = 0 := by rcases hg with h | h <;> simp [h, pyCount]
  have ht0 : pyCount tc = 0 := by rcases ht with h | h <;> simp [h, pyCount]
  have hy0 : pyCount yc = 0 := by rcases hy with h | h <;> simp [h, pyCount]
  simp [compute_standarized_review_score, hg0, ht0, hy0]

/-- Witness for C7: all six inputs absent evaluates to `None`. -/
theorem standardize_total_zero_returns_none_witness :
    compute_standarized_review_score none none none none none none = none :=
  standardize_total_zero_returns_none none none none none none none
    (Or.inl rfl) (Or.inl rfl) (Or.inl rfl)

/-- C2 counterexample: the fused result does NOT depend only on the
scored providers' (score, count) pairs.  With google = (4.0, 100) the
result changes when an unscored tabelog provider's count moves from 100
to absent (3.625 versus 3.75): the unscored count stays in the weight
normalization. -/
theorem standardize_unscored_count_changes_result :
    compute_standarized_review_score (some 4) (some 100) none (some 100) none none
      = some (29/8) ∧
    compute_standarized_review_score (some 4) (some 100) none none none none
      = some (15/4) ∧
    compute_standarized_review_score (some 4) (some 100) none (some 100) none none
      ≠ compute_standarized_review_score (some 4) (some 100) none none none none := by
  refine ⟨?_, ?_, ?_⟩ <;>
    norm_num [compute_standarized_review_score, zscore, contrib, pyCount]

/-- C2 (amended): a provider with a non-zero count but an absent score
contributes zero to the weighted z-sum (it is never imputed), but its
count is NOT excluded from the weight normalization: the function equals
the fused form whose normalizing total sums ALL providers' counts. -/
theorem standardize_eq_fuse_with_full_total
    (gs ts ys : Option ℚ) (gc tc yc : Option ℤ) :
    compute_standarized_review_score gs gc ts tc ys yc =
      fuseWithFullTotal
        [(gs, gc, 19/5, 2/5), (ts, tc, 31/10, 7/20), (ys, yc, 4, 1/2)] := by
  simp only [compute_standarized_review_score, fuseWithFullTotal,
    List.map_cons, List.map_nil, List.sum_cons, List.sum_nil, add_zero]
  have h : pyCount gc + (pyCount tc + pyCount yc)
      = pyCount gc + pyCount tc + pyCount yc := by ring
  rw [h]
  split
  · rfl
  · exact congrArg some (by ring)

/-- C8: for every semantic similarity `s`, star rating `r` and
non-negative review count `n`, the goodness score equals
`0.6*s + 0.4*clamp((shrunk - 3.0)/1.5, 0, 1)` with
`shrunk = (n*r + 30*3.5)/(n + 30)`. -/
theorem goodness_formula (s r : ℚ) (n : ℤ) (hn : 0 ≤ n) :
    goodness (some s) (some r) (some n) =
      3/5 * s + 2/5 *
        max 0 (min 1 (((((n : ℚ) * r + 30 * (7/2)) / ((n : ℚ) + 30)) - 3) / (3/2))) := by
  have hpos : (0 : ℤ) < n + 30 := by linarith
  simp [goodness, pyOr, pyCount_some, hpos]

/-- Witness for C8 at `s = 1/2`, `r = 4`, `n = 100`. -/
theorem goodness_formula_witness :
    (0 : ℤ) ≤ 100 ∧
    goodness (some (1/2)) (some 4) (some 100) =
      3/5 * (1/2) + 2/5 *
        max 0 (min 1 (((((100 : ℤ) : ℚ) * 4 + 30 * (7/2)) / (((100 : ℤ) : ℚ) + 30) - 3) / (3/2))) := by
  exact ⟨by decide, goodness_formula (1/2) 4 100 (by decide)⟩

open Yelp in
/-- C9: whenever the Yelp search returns a business whose name has
computed similarity below 0.7 to the queried name, the returned result
has rating, review count, and url all null simultaneously. -/
theorem yelp_unreliable_match_nulls_all (ratio : List Char → List Char → ℚ)
    (key : String) (resp : YelpHttpResp) (b : YelpBusiness) (rest : List YelpBusiness)
    (name : List Char) (location : Option String)
    (hstatus : resp.status_code = 200)
    (hbus : resp.businesses = b :: rest)
    (hsim : calculate_name_similarity ratio name (b.name.getD name) < 7/10) :
    search_yelp_business_internal ratio (some key) (.ok resp) name location
      = .ok ⟨name, none, none, none, []⟩ := by
  unfold search_yelp_business_internal
  dsimp only
  rw [if_neg (by simp [hstatus])]
  rw [hbus]
  dsimp only
  rw [if_neg (by simp [is_reliable_yelp_match, not_le, hsim])]

open Yelp in
/-- Witness for C9: a 200 response whose single business name is
dissimilar (ratio 0) to the query nulls rating, count and url. -/
theorem yelp_unreliable_match_nulls_all_witness :
    ((⟨200, "", [⟨some ['x'], some 4, some 10, some "https://yelp.com/biz/x"⟩]⟩ :
        YelpHttpResp).status_code = 200) ∧
    calculate_name_similarity zeroRatio ['a']
      ((some ['x'] : Option (List Char)).getD ['a']) < 7/10 ∧
    search_yelp_business_internal zeroRatio (some "key")
      (.ok ⟨200, "", [⟨some ['x'], some 4, some 10, some "https://yelp.com/biz/x"⟩]⟩)
      ['a'] none = .ok ⟨['a'], none, none, none, []⟩ := by
  have hsim : calculate_name_similarity zeroRatio ['a']
      ((some ['x'] : Option (List Char)).getD ['a']) < 7/10 := by
    norm_num [calculate_name_similarity, zeroRatio]
  exact ⟨rfl, hsim, yelp_unreliable_match_nulls_all zeroRatio "key" _ _ _ ['a'] none
    rfl rfl hsim⟩

open Yelp in
/-- C3 counterexample: a non-200 (here 503) search response makes the
internal Yelp search raise past its boundary (modeled `Except.error`)
instead of returning a status-tagged or nulled-out result. -/
theorem yelp_non200_raises :
    search_yelp_business_internal zeroRatio (some "key")
        (.ok ⟨503, "Service Unavailable", []⟩) ['s'] none
      = .error "Failed to search for restaurant on Yelp: Yelp search failed: Service Unavailable" ∧
    search_yelp_business_internal zeroRatio (some "key")
        (.ok ⟨503, "Service Unavailable", []⟩) ['s'] none
      ≠ .ok ⟨['s'], none, none, none, []⟩ := by
  constructor
  · rfl
  · intro h
    simp [search_yelp_business_internal] at h

open Yelp in
/-- C3 (amended): the internal Yelp search raises (an `Except.error`)
on every non-200 response; only the batch enhancer converts a raised
exception into the per-item all-null output, while the found-nothing
case is returned as a nulled-out success. -/
theorem yelp_boundary_behavior (ratio : List Char → List Char → ℚ) (key : String)
    (resp : YelpHttpResp) (name : List Char) (loc : Option String)
    (http : List Char → Except String YelpHttpResp) (names : List (List Char)) :
    (resp.status_code ≠ 200 →
      search_yelp_business_internal ratio (some key) (.ok resp) name loc
        = .error ("Failed to search for restaurant on Yelp: Yelp search failed: " ++ resp.text)) ∧
    (resp.status_code = 200 → resp.businesses = [] →
      search_yelp_business_internal ratio (some key) (.ok resp) name loc
        = .ok ⟨name, none, none, none, []⟩) ∧
    (yelp_enhance_google_maps_results ratio (some key) http names loc).length
      = names.length ∧
    (∀ n e, search_yelp_business_internal ratio (some key) (http n) n loc = .error e →
      enhanceOne ratio (some key) (http n) n loc = ⟨n, none, none, none, []⟩) := by
  refine ⟨?_, ?_, ?_, ?_⟩
  · intro hne
    unfold search_yelp_business_internal
    dsimp only
    rw [if_pos hne]
  · intro h200 hempty
    unfold search_yelp_business_internal
    dsimp only
    rw [if_neg (by simp [h200])]
    rw [hempty]
  · simp [yelp_enhance_google_maps_results]
  · intro n e h
    unfold enhanceOne
    rw [h]

open Yelp in
/-- Witness for the amended C3 at a concrete 503 response: the internal
search errors, and the batch enhancer turns it into the all-null item. -/
theorem yelp_boundary_behavior_witness :
    ((⟨503, "down", []⟩ : YelpHttpResp).status_code ≠ 200) ∧
    search_yelp_business_internal zeroRatio (some "key")
        (.ok ⟨503, "down", []⟩) ['s'] none
      = .error ("Failed to search for restaurant on Yelp: Yelp search failed: " ++ "down") ∧
    yelp_enhance_google_maps_results zeroRatio (some "key")
        (fun _ => .ok ⟨503, "down", []⟩) [['s']] none
      = [⟨['s'], none, none, none, []⟩] := by
  have hb := yelp_boundary_behavior zeroRatio "key" ⟨503, "down", []⟩ ['s'] none
    (fun _ => .ok ⟨503, "down", []⟩) [['s']]
  have h503 : ((⟨503, "down", []⟩ : YelpHttpResp) : YelpHttpResp).status_code ≠ 200 := by
    decide
  have herr := hb.1 h503
  refine ⟨h503, herr, ?_⟩
  have hone := hb.2.2.2 ['s'] _ herr
  simp [yelp_enhance_google_maps_results, hone]

end ReviewAgent
